import Mathlib

/-!
Verification of `yaml_error_context_hack` (`src/error_and_context.rs`).

The extractor `ErrorAndContext::new` is embedded shallowly over `List Char`
strings.  The external offset resolver `miette::SourceOffset::from_location`
is out of scope for the repository, so it is kept abstract: every statement
is quantified over an arbitrary `resolve : List Char → Nat → Nat → σ`.

Rust string operations used by the source are embedded as follows:

* `str::split(pat)` — `splitOnL`: left-to-right greedy non-overlapping split
  on a literal separator (fuel-based structural recursion so that it reduces
  in the kernel).
* `str::rsplit(pat)` — `rsplitL`: matches are searched from the end of the
  string, which is the same as a forward split of the reversed string on the
  reversed separator, with every fragment reversed back.
* `str::parse::<usize>` — `parseUsize`: optional leading `'+'`, then one or
  more ASCII digits, rejecting anything else and values that overflow a
  64-bit `usize`.
-/

set_option autoImplicit false

/-- One step of a left-to-right split on separator `sep`: `fuel` only forces
termination and is always instantiated with the length of the string, which
suffices whenever `sep` is nonempty (each match consumes `sep.length ≥ 1`
characters while spending one unit of fuel). -/
def splitOnFuel (sep : List Char) : Nat → List Char → List (List Char)
  | _, [] => [[]]
  | 0, c :: rest => [c :: rest]
  | fuel + 1, c :: rest =>
    if sep.isPrefixOf (c :: rest) then
      [] :: splitOnFuel sep fuel ((c :: rest).drop sep.length)
    else
      match splitOnFuel sep fuel rest with
      | [] => [[c]]
      | f :: fs => (c :: f) :: fs

/-- Rust `str::split` on a literal (nonempty) separator, as a list of
fragments in left-to-right order. -/
def splitOnL (sep s : List Char) : List (List Char) :=
  splitOnFuel sep s.length s

/-- Rust `str::rsplit` on a literal separator: fragments ordered from the
rightmost to the leftmost, matches searched from the end of the string. -/
def rsplitL (sep s : List Char) : List (List Char) :=
  (splitOnFuel sep.reverse s.reverse.length s.reverse).map List.reverse

/-- The literal delimiter `" at line "` of `error_and_context.rs` line 56. -/
def atLineSep : List Char := (" at line ").data

/-- The literal delimiter `" column "` of `error_and_context.rs` line 57. -/
def columnSep : List Char := (" column ").data

/-- The literal delimiter `" at "` of `error_and_context.rs` line 95. -/
def atSep : List Char := (" at ").data

/-- Rust `str::parse::<usize>`: an optional leading `'+'` sign followed by
one or more ASCII digits; everything else fails, as does 64-bit overflow. -/
def parseUsize (s : List Char) : Option Nat :=
  let digits :=
    match s with
    | '+' :: rest => rest
    | _ => s
  if digits ≠ [] ∧ digits.all Char.isDigit then
    let v := digits.foldl (fun acc c => acc * 10 + (c.toNat - 48)) 0
    if v < 2 ^ 64 then some v else none
  else
    none

/-- The `filter_map` closure of `error_and_context.rs` lines 56–72: split the
fragment on `" column "`, parse the first two pieces as `usize`, and succeed
only when both parses succeed. -/
def parseFragment (frag : List Char) : Option (Nat × Nat) :=
  let parts := splitOnL columnSep frag
  let line := parts.head?.bind parseUsize
  let column := parts.tail.head?.bind parseUsize
  match line, column with
  | some l, some c => some (l, c)
  | _, _ => none

/-- The `line_column_pairs` iterator of `error_and_context.rs` lines 55–72:
`error_string.rsplit(" at line ").filter_map(...)`, fully materialised. -/
def validPairs (msg : List Char) : List (Nat × Nat) :=
  (rsplitL atLineSep msg).filterMap parseFragment

/-- Input error value: the `Display` string of the `serde_yaml::Error`
together with `error.location()` as an optional `(index, line, column)`
triple (`error_and_context.rs` lines 31–38). -/
structure RawError where
  message : List Char
  location : Option (Nat × Nat × Nat)

/-- Output record of the extractor, generic over the opaque span type
produced by the external resolver. -/
structure ErrorAndContext (σ : Type) where
  error_span : Option σ
  error_message : List Char
  context_span : Option σ

/-- The `match error_location_line_index_column { ... }` block of
`error_and_context.rs` lines 39–92, computing `(error_span, context_span)`.
The arm `Some((0, 1, 1))` is rendered as a decidable test on the components
of the triple; the sentinel branch draws the first two elements of
`validPairs`, mapping each through the resolver exactly as the source maps
each drawn pair through `SourceOffset::from_location`. -/
def spansOf {σ : Type} (resolve : List Char → Nat → Nat → σ)
    (file_contents msg : List Char) (loc : Option (Nat × Nat × Nat)) :
    Option σ × Option σ :=
  match loc with
  | some (index, line, column) =>
    if index = 0 ∧ line = 1 ∧ column = 1 then
      let pairs := validPairs msg
      let last_mark := pairs.head?.map (fun p => resolve file_contents p.1 p.2)
      let second_to_last_mark :=
        pairs.tail.head?.map (fun p => resolve file_contents p.1 p.2)
      match second_to_last_mark, last_mark with
      | some e, some c => (some e, some c)
      | none, some e => (some e, none)
      | some _, none => (none, none)
      | none, none => (none, none)
    else
      (some (resolve file_contents line column), none)
  | none => (none, none)

/-- Step 3 of the extractor (`error_and_context.rs` lines 94–98):
`error_string.split(" at ").next().map(str::to_string).unwrap_or(error_string)`. -/
def cleanMessage (msg : List Char) : List Char :=
  (splitOnL atSep msg).headD msg

/-- `ErrorAndContext::new` (`error_and_context.rs` lines 30–105), with the
resolver abstract. -/
def ErrorAndContext.new {σ : Type} (resolve : List Char → Nat → Nat → σ)
    (file_contents : List Char) (error : RawError) : ErrorAndContext σ :=
  let error_string := error.message
  let spans := spansOf resolve file_contents error_string error.location
  { error_span := spans.1
    error_message := cleanMessage error_string
    context_span := spans.2 }

/-- Spec-side function: the prefix of `s` strictly before the first
(leftmost) occurrence of `sep`, the whole of `s` when `sep` does not occur. -/
def prefixBefore (sep : List Char) : List Char → List Char
  | [] => []
  | c :: rest =>
    if sep.isPrefixOf (c :: rest) then [] else c :: prefixBefore sep rest

/-- Spec-side predicate: `sep` occurs as a contiguous substring of `s`. -/
def hasSub (sep : List Char) : List Char → Bool
  | [] => sep.isPrefixOf []
  | c :: rest => sep.isPrefixOf (c :: rest) || hasSub sep rest

/-- A concrete resolver used to instantiate the abstract offset resolver on
sample inputs: it records the `(line, column)` pair it was called with. -/
def wresolve : List Char → Nat → Nat → Nat × Nat := fun _ l c => (l, c)

/-- Sample message with two positional fragments (spec Scenario C). -/
def wmsgTwo : List Char :=
  ("missing field `path` at line 2 column 12 at line 2 column 3").data

/-- Sample message with a single positional fragment (spec Scenario D). -/
def wmsgOne : List Char :=
  ("outer.inner: unknown variant `~`, expected `One` or `Two` at line 3 column 10").data

/-- Sample message with exactly two well-formed positional fragments. -/
def wmsgSix₁ : List Char := ("x at line 2 column 12 at line 2 column 3").data

/-- Sample message with a third well-formed positional fragment beyond the
first two found scanning from the right. -/
def wmsgSix₂ : List Char :=
  ("y at line 2 column 9 at line 2 column 12 at line 2 column 3").data

/-! ### Helper lemmas -/

theorem splitOnFuel_ne_nil (sep : List Char) :
    ∀ fuel s, splitOnFuel sep fuel s ≠ [] := by
  intro fuel
  induction fuel with
  | zero => intro s; cases s <;> simp [splitOnFuel]
  | succ n ih =>
    intro s
    cases s with
    | nil => simp [splitOnFuel]
    | cons c rest =>
      simp only [splitOnFuel]
      split
      · simp
      · cases h : splitOnFuel sep n rest with
        | nil => simp
        | cons f fs => simp [h]


theorem splitOnFuel_headD (sep : List Char) :
    ∀ fuel s d, s.length ≤ fuel →
      (splitOnFuel sep fuel s).headD d = prefixBefore sep s := by
  intro fuel
  induction fuel with
  | zero =>
    intro s d hs
    cases s with
    | nil => simp [splitOnFuel, prefixBefore]
    | cons c rest => simp at hs
  | succ n ih =>
    intro s d hs
    cases s with
    | nil => simp [splitOnFuel, prefixBefore]
    | cons c rest =>
      simp only [splitOnFuel, prefixBefore]
      by_cases h : sep.isPrefixOf (c :: rest) = true
      · simp [h]
      · simp only [h, if_neg, Bool.false_eq_true, ite_false]
        cases hsp : splitOnFuel sep n rest with
        | nil => exact absurd hsp (splitOnFuel_ne_nil sep n rest)
        | cons f fs =>
          have hf : f = prefixBefore sep rest := by
            have := ih rest d (by simpa using Nat.le_of_succ_le_succ hs)
            rw [hsp] at this
            simpa using this
          simp [hf]


theorem cleanMessage_eq_prefixBefore (msg : List Char) :
    cleanMessage msg = prefixBefore atSep msg :=
  splitOnFuel_headD atSep msg.length msg msg (Nat.le_refl _)

theorem isPrefixOf_trans (a b c : List Char) (hab : a.isPrefixOf b = true)
    (hbc : b.isPrefixOf c = true) : a.isPrefixOf c = true := by
  induction a generalizing b c with
  | nil => simp [List.isPrefixOf]
  | cons x xs ih =>
    cases b with
    | nil => simp [List.isPrefixOf] at hab
    | cons y ys =>
      cases c with
      | nil => simp [List.isPrefixOf] at hbc
      | cons z zs =>
        simp only [List.isPrefixOf, Bool.and_eq_true, beq_iff_eq] at hab hbc ⊢
        exact ⟨hab.1.trans hbc.1, ih ys zs hab.2 hbc.2⟩

theorem prefixBefore_isPrefixOf (sep : List Char) :
    ∀ s, (prefixBefore sep s).isPrefixOf s = true := by
  intro s
  induction s with
  | nil => rfl
  | cons c rest ih =>
    by_cases h : sep.isPrefixOf (c :: rest) = true
    · simp [prefixBefore, h, List.isPrefixOf]
    · simp [prefixBefore, h, List.isPrefixOf, ih]

theorem hasSub_prefixBefore (sep : List Char) (hsep : sep ≠ []) :
    ∀ s, hasSub sep (prefixBefore sep s) = false := by
  intro s
  have hnil : hasSub sep [] = false := by
    cases sep with
    | nil => exact absurd rfl hsep
    | cons a as => rfl
  induction s with
  | nil => exact hnil
  | cons c rest ih =>
    by_cases h : sep.isPrefixOf (c :: rest) = true
    · rw [show prefixBefore sep (c :: rest) = [] from by simp [prefixBefore, h]]
      exact hnil
    · rw [show prefixBefore sep (c :: rest) = c :: prefixBefore sep rest from by
        simp [prefixBefore, h]]
      show (sep.isPrefixOf (c :: prefixBefore sep rest) ||
        hasSub sep (prefixBefore sep rest)) = false
      rw [ih, Bool.or_false]
      cases hc : sep.isPrefixOf (c :: prefixBefore sep rest) with
      | false => rfl
      | true =>
        have hsub : (c :: prefixBefore sep rest).isPrefixOf (c :: rest) = true := by
          simp [List.isPrefixOf, prefixBefore_isPrefixOf sep rest]
        exact absurd (isPrefixOf_trans sep _ _ hc hsub) h

theorem prefixBefore_of_hasSub_false (sep : List Char) :
    ∀ s, hasSub sep s = false → prefixBefore sep s = s := by
  intro s
  induction s with
  | nil => intro _; rfl
  | cons c rest ih =>
    intro h
    have h' : (sep.isPrefixOf (c :: rest) || hasSub sep rest) = false := h
    rw [Bool.or_eq_false_iff] at h'
    rw [show prefixBefore sep (c :: rest) = c :: prefixBefore sep rest from by
      simp [prefixBefore, h'.1]]
    rw [ih h'.2]

theorem prefixBefore_idem (sep : List Char) (hsep : sep ≠ []) (s : List Char) :
    prefixBefore sep (prefixBefore sep s) = prefixBefore sep s :=
  prefixBefore_of_hasSub_false sep _ (hasSub_prefixBefore sep hsep s)

theorem take_two_heads {α : Type} (l₁ l₂ : List α) (h : l₁.take 2 = l₂.take 2) :
    l₁.head? = l₂.head? ∧ l₁.tail.head? = l₂.tail.head? := by
  cases l₁ with
  | nil =>
    cases l₂ with
    | nil => simp
    | cons b bs => simp [List.take] at h
  | cons a as =>
    cases l₂ with
    | nil => simp [List.take] at h
    | cons b bs =>
      simp [List.take] at h
      obtain ⟨rfl, h⟩ := h
      cases as with
      | nil =>
        cases bs with
        | nil => simp
        | cons b' bs' => simp [List.take] at h
      | cons a' as' =>
        cases bs with
        | nil => simp [List.take] at h
        | cons b' bs' =>
          simp [List.take] at h
          simp [h]

/-! ### Claims -/

/-- C1: when the structured location is the sentinel `(0, 1, 1)` and the
right-to-left scan of the message over `" at line "` yields at least two
fragments parsing as `"<line> column <column>"`, the extractor returns
`error_span = resolve(second parsed pair)` (the earlier-occurring, more
specific mark) and `context_span = resolve(first parsed pair)` (the
rightmost, broader mark). -/
theorem extract_sentinel_two_marks {σ : Type} (resolve : List Char → Nat → Nat → σ)
    (fc : List Char) (e : RawError) (p0 p1 : Nat × Nat) (rest : List (Nat × Nat))
    (hloc : e.location = some (0, 1, 1))
    (hpairs : validPairs e.message = p0 :: p1 :: rest) :
    (ErrorAndContext.new resolve fc e).error_span = some (resolve fc p1.1 p1.2) ∧
      (ErrorAndContext.new resolve fc e).context_span = some (resolve fc p0.1 p0.2) := by
  simp [ErrorAndContext.new, spansOf, hloc, hpairs]

/-- Witness for C1 on the message
`"missing field `path` at line 2 column 12 at line 2 column 3"`:
`error_span = resolve(2, 12)` and `context_span = resolve(2, 3)`. -/
theorem extract_sentinel_two_marks_witness :
    (ErrorAndContext.new wresolve [] ⟨wmsgTwo, some (0, 1, 1)⟩).error_span =
        some (2, 12) ∧
      (ErrorAndContext.new wresolve [] ⟨wmsgTwo, some (0, 1, 1)⟩).context_span =
        some (2, 3) :=
  extract_sentinel_two_marks wresolve [] ⟨wmsgTwo, some (0, 1, 1)⟩ (2, 3) (2, 12) []
    rfl (by decide)

/-- C2: a present structured location that is not the sentinel `(0, 1, 1)` is
trusted directly: `error_span = resolve(line, column)` with the byte index
unused, `context_span = None`, regardless of the message contents. -/
theorem extract_trusted_location {σ : Type} (resolve : List Char → Nat → Nat → σ)
    (fc : List Char) (e : RawError) (index line column : Nat)
    (hloc : e.location = some (index, line, column))
    (hns : (index, line, column) ≠ ((0, 1, 1) : Nat × Nat × Nat)) :
    (ErrorAndContext.new resolve fc e).error_span = some (resolve fc line column) ∧
      (ErrorAndContext.new resolve fc e).context_span = none := by
  have hns' : ¬(index = 0 ∧ line = 1 ∧ column = 1) := by
    intro hcon
    exact hns (by simp [hcon.1, hcon.2.1, hcon.2.2])
  simp [ErrorAndContext.new, spansOf, hloc, hns']

/-- Witness for C2: location `(5, 3, 7)` is trusted directly, whatever the
message says. -/
theorem extract_trusted_location_witness :
    (ErrorAndContext.new wresolve [] ⟨("whatever").data, some (5, 3, 7)⟩).error_span =
        some (3, 7) ∧
      (ErrorAndContext.new wresolve [] ⟨("whatever").data, some (5, 3, 7)⟩).context_span =
        none :=
  extract_trusted_location wresolve [] ⟨("whatever").data, some (5, 3, 7)⟩ 5 3 7
    rfl (by decide)

/-- C3: with the sentinel location and exactly one fragment parsing as a
`(line, column)` pair under the right-to-left scan, the extractor returns
`error_span = resolve(that pair)` and `context_span = None`. -/
theorem extract_sentinel_single_mark {σ : Type} (resolve : List Char → Nat → Nat → σ)
    (fc : List Char) (e : RawError) (p : Nat × Nat)
    (hloc : e.location = some (0, 1, 1))
    (hpairs : validPairs e.message = [p]) :
    (ErrorAndContext.new resolve fc e).error_span = some (resolve fc p.1 p.2) ∧
      (ErrorAndContext.new resolve fc e).context_span = none := by
  simp [ErrorAndContext.new, spansOf, hloc, hpairs]

/-- Witness for C3 on the message
`"outer.inner: unknown variant `~`, expected `One` or `Two` at line 3 column 10"`:
`error_span = resolve(3, 10)`, `context_span = None`. -/
theorem extract_sentinel_single_mark_witness :
    (ErrorAndContext.new wresolve [] ⟨wmsgOne, some (0, 1, 1)⟩).error_span =
        some (3, 10) ∧
      (ErrorAndContext.new wresolve [] ⟨wmsgOne, some (0, 1, 1)⟩).context_span = none :=
  extract_sentinel_single_mark wresolve [] ⟨wmsgOne, some (0, 1, 1)⟩ (3, 10)
    rfl (by decide)

/-- C4: whatever branch was taken, the returned `error_message` is the prefix
of the original message strictly before the first (leftmost) occurrence of
`" at "`, and it is the message unchanged when the message contains no
`" at "`. -/
theorem extract_message_before_first_at {σ : Type} (resolve : List Char → Nat → Nat → σ)
    (fc : List Char) (e : RawError) :
    (ErrorAndContext.new resolve fc e).error_message = prefixBefore atSep e.message ∧
      (hasSub atSep e.message = false →
        (ErrorAndContext.new resolve fc e).error_message = e.message) := by
  constructor
  · exact cleanMessage_eq_prefixBefore e.message
  · intro h
    show cleanMessage e.message = e.message
    rw [cleanMessage_eq_prefixBefore]
    exact prefixBefore_of_hasSub_false atSep e.message h

/-- Witness for C4 on a message without `" at "`: the message is returned
unchanged and equals its own prefix before a (nonexistent) delimiter. -/
theorem extract_message_before_first_at_witness :
    (ErrorAndContext.new wresolve [] ⟨("missing field `path`").data, none⟩).error_message =
        prefixBefore atSep ("missing field `path`").data ∧
      (ErrorAndContext.new wresolve [] ⟨("missing field `path`").data, none⟩).error_message =
        ("missing field `path`").data :=
  ⟨(extract_message_before_first_at wresolve [] ⟨("missing field `path`").data, none⟩).1,
    (extract_message_before_first_at wresolve [] ⟨("missing field `path`").data, none⟩).2
      (by decide)⟩

/-- C5: for every result produced by the extractor, if `context_span` is
`Some` then `error_span` is also `Some`. -/
theorem extract_context_some_implies_error_some {σ : Type}
    (resolve : List Char → Nat → Nat → σ) (fc : List Char) (e : RawError)
    (h : (ErrorAndContext.new resolve fc e).context_span.isSome = true) :
    (ErrorAndContext.new resolve fc e).error_span.isSome = true := by
  have hspan : ∀ loc, ((spansOf resolve fc e.message loc).2.isSome = true) →
      (spansOf resolve fc e.message loc).1.isSome = true := by
    intro loc
    cases loc with
    | none => simp [spansOf]
    | some t =>
      obtain ⟨i, l, c⟩ := t
      by_cases hs : i = 0 ∧ l = 1 ∧ c = 1
      · cases h0 : (validPairs e.message).head? with
        | none =>
          have h1 : (validPairs e.message).tail.head? = none := by
            cases hv : validPairs e.message with
            | nil => simp
            | cons x xs => simp [hv] at h0
          simp [spansOf, hs, h0, h1]
        | some p0 =>
          cases h1 : (validPairs e.message).tail.head? with
          | none => simp [spansOf, hs, h0, h1]
          | some p1 => simp [spansOf, hs, h0, h1]
      · simp [spansOf, hs]
  exact hspan e.location h

/-- Witness for C5 on a two-fragment sentinel input whose `context_span` is
`Some`: its `error_span` is `Some` as well. -/
theorem extract_context_some_implies_error_some_witness :
    (ErrorAndContext.new wresolve [] ⟨wmsgTwo, some (0, 1, 1)⟩).error_span.isSome =
      true :=
  extract_context_some_implies_error_some wresolve [] ⟨wmsgTwo, some (0, 1, 1)⟩
    (by decide)

/-- C6: in the sentinel branch the resulting spans depend only on the first
two valid `(line, column)` pairs found scanning the message right to left:
two messages whose scans agree on those first two pairs produce identical
spans, however many further well-formed fragments either contains. -/
theorem extract_sentinel_depends_on_first_two {σ : Type}
    (resolve : List Char → Nat → Nat → σ) (fc : List Char) (e₁ e₂ : RawError)
    (hloc₁ : e₁.location = some (0, 1, 1)) (hloc₂ : e₂.location = some (0, 1, 1))
    (hpairs : (validPairs e₁.message).take 2 = (validPairs e₂.message).take 2) :
    (ErrorAndContext.new resolve fc e₁).error_span =
        (ErrorAndContext.new resolve fc e₂).error_span ∧
      (ErrorAndContext.new resolve fc e₁).context_span =
        (ErrorAndContext.new resolve fc e₂).context_span := by
  obtain ⟨hh, ht⟩ := take_two_heads _ _ hpairs
  simp [ErrorAndContext.new, spansOf, hloc₁, hloc₂, hh, ht]

/-- Witness for C6: a two-fragment message and a three-fragment message whose
first two right-to-left pairs coincide yield identical spans. -/
theorem extract_sentinel_depends_on_first_two_witness :
    (ErrorAndContext.new wresolve [] ⟨wmsgSix₁, some (0, 1, 1)⟩).error_span =
        (ErrorAndContext.new wresolve [] ⟨wmsgSix₂, some (0, 1, 1)⟩).error_span ∧
      (ErrorAndContext.new wresolve [] ⟨wmsgSix₁, some (0, 1, 1)⟩).context_span =
        (ErrorAndContext.new wresolve [] ⟨wmsgSix₂, some (0, 1, 1)⟩).context_span :=
  extract_sentinel_depends_on_first_two wresolve [] ⟨wmsgSix₁, some (0, 1, 1)⟩
    ⟨wmsgSix₂, some (0, 1, 1)⟩ rfl rfl (by decide)

/-- C7: Step 3 message cleaning is idempotent: applying it twice yields the
same string as applying it once. -/
theorem extract_clean_idempotent (msg : List Char) :
    cleanMessage (cleanMessage msg) = cleanMessage msg := by
  rw [cleanMessage_eq_prefixBefore, cleanMessage_eq_prefixBefore]
  exact prefixBefore_idem atSep (by decide) msg

/-- C8: with no structured location and no `" at "` in the message, the
extractor returns exactly `{error_span = None, error_message = message,
context_span = None}` with the message unchanged. -/
theorem extract_absent_location_plain_message {σ : Type}
    (resolve : List Char → Nat → Nat → σ) (fc : List Char) (e : RawError)
    (hloc : e.location = none) (hat : hasSub atSep e.message = false) :
    ErrorAndContext.new resolve fc e =
      { error_span := none, error_message := e.message, context_span := none } := by
  have hmsg : cleanMessage e.message = e.message := by
    rw [cleanMessage_eq_prefixBefore]
    exact prefixBefore_of_hasSub_false atSep e.message hat
  simp [ErrorAndContext.new, spansOf, hloc, hmsg]

/-- Witness for C8 on the message `"missing field `path`"` with no location:
the result is exactly `{None, message, None}`. -/
theorem extract_absent_location_plain_message_witness :
    ErrorAndContext.new wresolve [] ⟨("missing field `path`").data, none⟩ =
      { error_span := none, error_message := ("missing field `path`").data,
        context_span := none } :=
  extract_absent_location_plain_message wresolve []
    ⟨("missing field `path`").data, none⟩ rfl (by decide)

/-- C9: the extractor is total — every input yields a result — and when the
sentinel branch finds no valid fragment at all, both spans degrade to
`None` instead of an error. -/
theorem extract_total_best_effort {σ : Type} (resolve : List Char → Nat → Nat → σ)
    (fc : List Char) (e : RawError) :
    ∃ r : ErrorAndContext σ, ErrorAndContext.new resolve fc e = r ∧
      (e.location = some (0, 1, 1) → validPairs e.message = [] →
        r.error_span = none ∧ r.context_span = none) := by
  refine ⟨ErrorAndContext.new resolve fc e, rfl, ?_⟩
  intro hloc hpairs
  simp [ErrorAndContext.new, spansOf, hloc, hpairs]

/-- Witness for C9 on the sentinel message `"bad at line x column y"`, whose
only fragment fails numeric parsing: both spans are `None`. -/
theorem extract_total_best_effort_witness :
    (ErrorAndContext.new wresolve [] ⟨("bad at line x column y").data,
        some (0, 1, 1)⟩).error_span = none ∧
      (ErrorAndContext.new wresolve [] ⟨("bad at line x column y").data,
        some (0, 1, 1)⟩).context_span = none := by
  obtain ⟨r, hr, h⟩ :=
    extract_total_best_effort wresolve []
      (⟨("bad at line x column y").data, some (0, 1, 1)⟩ : RawError)
  rw [hr]
  exact h rfl (by decide)

/-- C10: the returned `error_message` never contains the substring `" at "`
at all, on any input. -/
theorem extract_message_never_contains_at {σ : Type}
    (resolve : List Char → Nat → Nat → σ) (fc : List Char) (e : RawError) :
    hasSub atSep (ErrorAndContext.new resolve fc e).error_message = false := by
  show hasSub atSep (cleanMessage e.message) = false
  rw [cleanMessage_eq_prefixBefore]
  exact hasSub_prefixBefore atSep (by decide) e.message
